import Mathlib

/-!
Shallow embedding of the token-extraction console script of
x-interest-cleaner (src/get_config_file.js).

The script ships two variants of the same IIFE:
  * strict variant (lines 17-115): captures both the `ct0` and the
    `auth_token` cookie and fails when either is missing;
  * tolerant variant (lines 130-216): captures only `ct0` and tolerates a
    missing `auth_token`.
Both share the same cookie parsing: `document.cookie.split(";")`, then per
entry `cookie.trim().split("=")` destructured as `[name, value]`.  JS
`split("=")` splits at every `=`, and destructuring takes elements 0 / 1,
so a value containing `=` comes out truncated at its second `=`.
We model both variants with one function parameterised on `captureAuth`.
-/

namespace XInterestCleaner

/-- JS `String.prototype.split` for a one-character separator, on the
underlying character list.  JS splits at every occurrence of the separator;
an empty input yields one empty field. -/
def splitOnChar (sep : Char) : List Char → List (List Char)
  | [] => [[]]
  | x :: xs =>
    if x == sep then [] :: splitOnChar sep xs
    else
      match splitOnChar sep xs with
      | [] => [[x]]
      | y :: ys => (x :: y) :: ys

/-- The whitespace characters of JS `String.prototype.trim` that can occur
in cookie strings. -/
def isJsWs (c : Char) : Bool := c == ' ' || c == '\t' || c == '\n' || c == '\r'

/-- JS `String.prototype.trim`. -/
def jsTrim (s : String) : String :=
  ⟨((s.data.dropWhile isJsWs).reverse.dropWhile isJsWs).reverse⟩

/-- JS `s.split(sep)` for a one-character separator. -/
def jsSplit (sep : Char) (s : String) : List String :=
  (splitOnChar sep s.data).map fun l => ⟨l⟩

/-- `const [name, value] = cookie.trim().split("=")` — the name is element 0
of the split (present in every JS split result) and the value is element 1
(`undefined`, i.e. `none`, when the entry has no `=`). -/
def parseCookie (cookie : String) : String × Option String :=
  let parts := jsSplit '=' (jsTrim cookie)
  (parts.headD "", parts[1]?)

/-- The `name` of a cookie entry, as the script computes it. -/
def entryName (cookie : String) : String := (parseCookie cookie).1

/-- The `value` of a cookie entry, as the script computes it. -/
def entryValue (cookie : String) : Option String := (parseCookie cookie).2

/-- Does the script's parse of this entry name it `ct0`? -/
def isCt0Entry (cookie : String) : Bool := entryName cookie == "ct0"

/-- Does the script's parse of this entry name it `auth_token`? -/
def isAuthEntry (cookie : String) : Bool := entryName cookie == "auth_token"

/-- The mutable `tokens` object during the `cookies.forEach` loop: each
field is `undefined` (`none`) until assigned. -/
structure TokensAcc where
  ct0 : Option String
  csrf_token : Option String
  auth_token : Option String
deriving Repr, DecidableEq

/-- The `tokens` object starts as `{}`. -/
def TokensAcc.init : TokensAcc := ⟨none, none, none⟩

/-- One iteration of the `cookies.forEach` callback.  When the matched
value is `undefined` the subsequent `value.substring(0, 20)` in the
logging call throws a TypeError, which aborts the loop and lands in the
outer `catch`: we model that as `.error ()`.  The tolerant variant has no
`auth_token` branch, expressed by `captureAuth = false`. -/
def cookieStep (captureAuth : Bool) (acc : TokensAcc) (cookie : String) :
    Except Unit TokensAcc :=
  if entryName cookie == "ct0" then
    match entryValue cookie with
    | none => .error ()
    | some v => .ok { acc with ct0 := some v, csrf_token := some v }
  else if captureAuth && (entryName cookie == "auth_token") then
    match entryValue cookie with
    | none => .error ()
    | some v => .ok { acc with auth_token := some v }
  else .ok acc

/-- `cookies.forEach((cookie) => ...)`: left-to-right, aborted by a thrown
exception. -/
def foldCookies (captureAuth : Bool) : List String → TokensAcc → Except Unit TokensAcc
  | [], acc => .ok acc
  | c :: cs, acc =>
    match cookieStep captureAuth acc c with
    | .error e => .error e
    | .ok acc2 => foldCookies captureAuth cs acc2

/-- JS truthiness of `tokens.ct0` / `tokens.auth_token`: `undefined` and
the empty string are falsy, every other string truthy. -/
def truthy : Option String → Bool
  | none => false
  | some v => !(v == "")

/-- The fixed default web-app bearer token the script hardcodes. -/
def bearer_token_constant : String :=
  "AAAAAAAAAAAAAAAAAAAAAMLheAAAAAAA0%2BuSeid%2BULvsea4JtiGRiSDyJug%3D"

/-- How an extraction run can fail before producing a config. -/
inductive ExtractError where
  /-- an exception reached the outer `try`/`catch` -/
  | thrown
  /-- `!tokens.ct0` — the "Could not find ct0 cookie!" branch -/
  | missingCt0
  /-- `!tokens.auth_token` — strict variant only -/
  | missingAuthToken
deriving Repr, DecidableEq

/-- The credential bundle the script serialises: keys `ct0`, `csrf_token`,
optionally `auth_token`, and `bearer_token`.  `JSON.stringify` skips
`undefined` fields, hence `auth_token` is an `Option`. -/
structure Config where
  ct0 : String
  csrf_token : String
  auth_token : Option String
  bearer_token : String
deriving Repr, DecidableEq

/-- The whole extraction pipeline up to (and including) validation:
split `document.cookie` on `;`, run the forEach loop, set the constant
`bearer_token`, then validate `ct0` (and, for the strict variant,
`auth_token`) by truthiness, in that order. -/
def extractTokens (captureAuth : Bool) (cookieString : String) :
    Except ExtractError Config :=
  match foldCookies captureAuth (jsSplit ';' cookieString) TokensAcc.init with
  | .error _ => .error .thrown
  | .ok acc =>
    if truthy acc.ct0 then
      if captureAuth && !truthy acc.auth_token then .error .missingAuthToken
      else
        .ok { ct0 := acc.ct0.getD "", csrf_token := acc.csrf_token.getD "",
              auth_token := acc.auth_token, bearer_token := bearer_token_constant }
    else .error .missingCt0

/-- The key/value bindings of the serialised JSON object, in the insertion
order of the script (`ct0`, `csrf_token`, `auth_token` when present,
`bearer_token`). -/
def configEntries (c : Config) : List (String × String) :=
  [("ct0", c.ct0), ("csrf_token", c.csrf_token)] ++
    (match c.auth_token with
     | none => []
     | some a => [("auth_token", a)]) ++
    [("bearer_token", c.bearer_token)]

/-- Observable side effects of a run that matter to the spec: the
`config.json` download, the clipboard write, and the logged notice about
its outcome. -/
inductive Effect where
  | fileSave (filename : String) (content : Config)
  | clipboardWrite (content : Config)
  | clipboardNotice (ok : Bool)
deriving Repr, DecidableEq

/-- Outcome of a run of the script. -/
inductive RunOutcome where
  | success (c : Config)
  | failure (e : ExtractError)
deriving Repr, DecidableEq

/-- The full run: on extraction failure nothing is downloaded; on success
the file download happens unconditionally, and only afterwards, when
`navigator.clipboard && navigator.clipboard.writeText` is available, the
clipboard write is attempted and its promise result merely logged. -/
def runExtractor (captureAuth : Bool) (cookieString : String)
    (clipboardAvailable clipboardWriteSucceeds : Bool) :
    RunOutcome × List Effect :=
  match extractTokens captureAuth cookieString with
  | .error e => (.failure e, [])
  | .ok c =>
    (.success c,
      Effect.fileSave "config.json" c ::
        (if clipboardAvailable then
          [Effect.clipboardWrite c, Effect.clipboardNotice clipboardWriteSucceeds]
         else []))

/-- Is this effect the `config.json` download? -/
def isFileSave : Effect → Bool
  | .fileSave _ _ => true
  | _ => false

/-- Is this effect part of the clipboard step? -/
def isClipboardEffect : Effect → Bool
  | .clipboardWrite _ => true
  | .clipboardNotice _ => true
  | _ => false

/-- No `config.json` download occurs after any clipboard effect. -/
def noSaveAfterClipboard : List Effect → Bool
  | [] => true
  | e :: es =>
    if isClipboardEffect e then es.all (fun x => !isFileSave x) && noSaveAfterClipboard es
    else noSaveAfterClipboard es

/-- Whether extraction succeeded. -/
def extractionOk : Except ExtractError Config → Bool
  | .ok _ => true
  | .error _ => false

/-! Spec-side notions, written from the spec's words, for comparison with
the script's parsing. -/

/-- The characters strictly after the first occurrence of `sep`, when
there is one. -/
def charsAfterFirst (sep : Char) : List Char → Option (List Char)
  | [] => none
  | c :: cs => if c == sep then some cs else charsAfterFirst sep cs

/-- The characters up to (not including) the first occurrence of `sep`. -/
def charsBefore (sep : Char) (l : List Char) : List Char :=
  l.takeWhile fun c => !(c == sep)

/-- Modelled from the spec: the full value of a cookie entry, i.e. the
entire substring after the first `=` of the trimmed entry — what the spec
claims the extractor keeps. -/
def entryFullValue (cookie : String) : Option String :=
  (charsAfterFirst '=' (jsTrim cookie).data).map fun l => ⟨l⟩

/-- The last update a left-to-right pass writes into a field: the parsed
value of the last entry satisfying `p`, or `base` when there is none. -/
def lastUpd (p : String → Bool) (l : List String) (base : Option String) :
    Option String :=
  l.foldl (fun a c => if p c then entryValue c else a) base

/-- The last element of the list satisfying `p`, when there is one. -/
def lastMatching (p : String → Bool) : List String → Option String
  | [] => none
  | c :: cs =>
    match lastMatching p cs with
    | some e => some e
    | none => if p c then some c else none

end XInterestCleaner

deriving instance DecidableEq for Except

namespace XInterestCleaner

/-! Parsing lemmas: the script's split-and-destructure parse of one cookie
entry keeps the name up to the first `=` and the value strictly between the
first and the second `=`. -/

theorem splitOnChar_decomp (sep : Char) (l : List Char) :
    splitOnChar sep l =
      charsBefore sep l ::
        (match charsAfterFirst sep l with
         | none => []
         | some r => splitOnChar sep r) := by
  induction l with
  | nil => rfl
  | cons x xs ih =>
    by_cases hx : (x == sep) = true
    · simp [splitOnChar, charsBefore, charsAfterFirst, List.takeWhile, hx]
    · have hx' : (x == sep) = false := by simpa using hx
      simp [splitOnChar, hx', charsBefore, charsAfterFirst, List.takeWhile, ih]

theorem jsSplit_head (sep : Char) (s : String) :
    (jsSplit sep s).headD "" = ⟨charsBefore sep s.data⟩ := by
  rw [jsSplit, splitOnChar_decomp]
  rfl

theorem jsSplit_one (sep : Char) (s : String) :
    (jsSplit sep s)[1]? =
      (charsAfterFirst sep s.data).map fun r => (⟨charsBefore sep r⟩ : String) := by
  rw [jsSplit, splitOnChar_decomp]
  cases h : charsAfterFirst sep s.data with
  | none => simp
  | some r => simp [splitOnChar_decomp sep r]

/-- The script's parse of a cookie entry, in closed form. -/
theorem parseCookie_eq (cookie : String) :
    parseCookie cookie =
      (⟨charsBefore '=' (jsTrim cookie).data⟩,
       (charsAfterFirst '=' (jsTrim cookie).data).map
         fun r => (⟨charsBefore '=' r⟩ : String)) := by
  rw [parseCookie]
  exact Prod.ext (jsSplit_head '=' (jsTrim cookie)) (jsSplit_one '=' (jsTrim cookie))

theorem charsBefore_of_no_sep (sep : Char) (l : List Char)
    (h : ∀ ch ∈ l, ch ≠ sep) : charsBefore sep l = l := by
  induction l with
  | nil => rfl
  | cons c cs ih =>
    have hc : (c == sep) = false := by
      simpa using h c (List.mem_cons_self c cs)
    simp only [charsBefore, List.takeWhile, hc, Bool.not_false, if_true]
    exact congrArg (c :: ·) (ih fun ch hch => h ch (List.mem_cons_of_mem c hch))

/-- When the full value after the first `=` contains no further `=`, the
script's extracted value is exactly that full value. -/
theorem entryValue_of_fullValue (c v : String)
    (h : entryFullValue c = some v) (hv : ∀ ch ∈ v.data, ch ≠ '=') :
    entryValue c = some v := by
  rw [entryFullValue] at h
  cases hr : charsAfterFirst '=' (jsTrim c).data with
  | none => rw [hr] at h; simp at h
  | some r =>
    rw [hr] at h
    simp only [Option.map_some'] at h
    have hrv : r = v.data := by
      cases v with
      | mk data => exact congrArg String.data (Option.some.inj h)
    rw [entryValue, parseCookie_eq]
    simp only [hr, Option.map_some', Option.some.injEq]
    rw [hrv, charsBefore_of_no_sep '=' v.data hv]

/-! Loop lemmas: what one `forEach` iteration, and the whole loop, write
into the `tokens` object. -/

theorem lastUpd_cons (p : String → Bool) (c : String) (cs : List String)
    (base : Option String) :
    lastUpd p (c :: cs) base =
      lastUpd p cs (if p c then entryValue c else base) := rfl

theorem cookieStep_ok (b : Bool) (acc : TokensAcc) (c : String) (acc2 : TokensAcc)
    (h : cookieStep b acc c = .ok acc2) :
    acc2.ct0 = (if isCt0Entry c then entryValue c else acc.ct0) ∧
    acc2.csrf_token = (if isCt0Entry c then entryValue c else acc.csrf_token) ∧
    acc2.auth_token = (if b && isAuthEntry c then entryValue c else acc.auth_token) := by
  by_cases h1 : entryName c = "ct0"
  · have hb1 : isCt0Entry c = true := by simp [isCt0Entry, h1]
    have hb2 : isAuthEntry c = false := by simp [isAuthEntry, h1]
    cases hv : entryValue c with
    | none => simp [cookieStep, h1, hv] at h
    | some v =>
      simp only [cookieStep, h1, hv, beq_self_eq_true, if_true,
        Except.ok.injEq] at h
      subst h
      simp [hb1, hb2, hv]
  · have hb1 : isCt0Entry c = false := by simp [isCt0Entry, h1]
    by_cases h2 : (b && (entryName c == "auth_token")) = true
    · have hb2 : (b && isAuthEntry c) = true := by
        simpa [isAuthEntry] using h2
      cases hv : entryValue c with
      | none => simp [cookieStep, h1, h2, hv] at h
      | some v =>
        simp only [cookieStep, h1, h2, hv, beq_iff_eq, if_false, if_true,
          Except.ok.injEq] at h
        subst h
        simp [hb1, hb2, hv]
    · have hb2 : (b && isAuthEntry c) = false := by
        simpa [isAuthEntry] using h2
      simp only [cookieStep, h1, h2, beq_iff_eq, if_false, Bool.false_eq_true,
        Except.ok.injEq] at h
      subst h
      simp [hb1, hb2]

theorem foldCookies_fields (b : Bool) (l : List String) (acc acc' : TokensAcc)
    (h : foldCookies b l acc = .ok acc') :
    acc'.ct0 = lastUpd isCt0Entry l acc.ct0 ∧
    acc'.csrf_token = lastUpd isCt0Entry l acc.csrf_token ∧
    acc'.auth_token = lastUpd (fun c => b && isAuthEntry c) l acc.auth_token := by
  induction l generalizing acc with
  | nil =>
    simp only [foldCookies, Except.ok.injEq] at h
    subst h
    exact ⟨rfl, rfl, rfl⟩
  | cons c cs ih =>
    cases hstep : cookieStep b acc c with
    | error e => simp [foldCookies, hstep] at h
    | ok acc2 =>
      have h2 : foldCookies b cs acc2 = .ok acc' := by
        simpa [foldCookies, hstep] using h
      obtain ⟨e1, e2, e3⟩ := cookieStep_ok b acc c acc2 hstep
      obtain ⟨i1, i2, i3⟩ := ih acc2 h2
      refine ⟨?_, ?_, ?_⟩
      · rw [lastUpd_cons, ← e1]; exact i1
      · rw [lastUpd_cons, ← e2]; exact i2
      · rw [lastUpd_cons, ← e3]; exact i3

theorem lastUpd_eq_lastMatching (p : String → Bool) (l : List String)
    (base : Option String) :
    lastUpd p l base =
      (match lastMatching p l with
       | none => base
       | some e => entryValue e) := by
  induction l generalizing base with
  | nil => rfl
  | cons c cs ih =>
    rw [lastUpd_cons, ih]
    cases hm : lastMatching p cs with
    | some e => simp [lastMatching, hm]
    | none =>
      by_cases hc : p c = true
      · simp [lastMatching, hm, hc]
      · simp [lastMatching, hm, hc]

theorem lastMatching_mem (p : String → Bool) (l : List String) (e : String)
    (h : lastMatching p l = some e) : e ∈ l ∧ p e = true := by
  induction l with
  | nil => simp [lastMatching] at h
  | cons c cs ih =>
    cases hm : lastMatching p cs with
    | some e2 =>
      rw [lastMatching, hm] at h
      obtain ⟨he, hp⟩ := ih (h ▸ hm)
      exact ⟨List.mem_cons_of_mem c he, hp⟩
    | none =>
      rw [lastMatching, hm] at h
      by_cases hc : p c = true
      · rw [if_pos hc] at h
        exact ⟨(Option.some.inj h) ▸ List.mem_cons_self c cs, (Option.some.inj h) ▸ hc⟩
      · rw [if_neg hc] at h
        exact absurd h (by simp)

theorem lastMatching_eq_none (p : String → Bool) (l : List String)
    (h : ∀ e ∈ l, p e = false) : lastMatching p l = none := by
  induction l with
  | nil => rfl
  | cons c cs ih =>
    rw [lastMatching, ih fun e he => h e (List.mem_cons_of_mem c he)]
    simp [h c (List.mem_cons_self c cs)]

theorem foldCookies_total (b : Bool) (l : List String) (acc : TokensAcc)
    (h : ∀ e ∈ l, (isCt0Entry e = true → entryValue e ≠ none) ∧
                  ((b && isAuthEntry e) = true → entryValue e ≠ none)) :
    ∃ acc', foldCookies b l acc = .ok acc' := by
  induction l generalizing acc with
  | nil => exact ⟨acc, rfl⟩
  | cons c cs ih =>
    have hc := h c (List.mem_cons_self c cs)
    have hstep : ∃ acc2, cookieStep b acc c = .ok acc2 := by
      by_cases h1 : entryName c = "ct0"
      · cases hv : entryValue c with
        | none =>
          exact absurd hv (hc.1 (by simp [isCt0Entry, h1]))
        | some v =>
          exact ⟨{ ct0 := some v, csrf_token := some v, auth_token := acc.auth_token },
            by simp [cookieStep, h1, hv]⟩
      · by_cases h2 : (b && (entryName c == "auth_token")) = true
        · cases hv : entryValue c with
          | none =>
            refine absurd hv (hc.2 ?_)
            simpa [isAuthEntry] using h2
          | some v =>
            exact ⟨{ ct0 := acc.ct0, csrf_token := acc.csrf_token, auth_token := some v },
              by simp [cookieStep, h1, h2, hv]⟩
        · exact ⟨acc, by simp [cookieStep, h1, h2]⟩
    obtain ⟨acc2, hs⟩ := hstep
    obtain ⟨acc', hrest⟩ := ih acc2 fun e he => h e (List.mem_cons_of_mem c he)
    exact ⟨acc', by simp [foldCookies, hs, hrest]⟩

/-! Lemmas about the pipeline around the loop. -/

theorem extractTokens_ok (b : Bool) (s : String) (cfg : Config)
    (h : extractTokens b s = .ok cfg) :
    ∃ acc, foldCookies b (jsSplit ';' s) TokensAcc.init = .ok acc ∧
      truthy acc.ct0 = true ∧
      (b && !truthy acc.auth_token) = false ∧
      cfg = { ct0 := acc.ct0.getD "", csrf_token := acc.csrf_token.getD "",
              auth_token := acc.auth_token, bearer_token := bearer_token_constant } := by
  unfold extractTokens at h
  cases hf : foldCookies b (jsSplit ';' s) TokensAcc.init with
  | error e => simp [hf] at h
  | ok acc =>
    rw [hf] at h
    by_cases h1 : truthy acc.ct0 = true
    · by_cases h2 : (b && !truthy acc.auth_token) = true
      · simp [h1, h2] at h
      · refine ⟨acc, rfl, h1, by simpa using h2, ?_⟩
        simp only [h1, if_true] at h
        rw [if_neg (by simpa using h2)] at h
        exact (Except.ok.inj h).symm
    · simp [h1] at h

theorem runExtractor_of_error (b : Bool) (s : String) (ca ok : Bool)
    (e : ExtractError) (h : extractTokens b s = .error e) :
    runExtractor b s ca ok = (.failure e, []) := by
  simp [runExtractor, h]

/-! The claims. -/

/-- Claim C1, counterexample: on the cookie string `ct0=a=b`, whose single
`ct0` entry has full cookie value `a=b`, the extractor produces a bundle,
but its `ct0`/`csrf_token` fields hold `a`, not the full value `a=b`:
JS `split("=")` splits at every `=` and destructuring keeps element 1. -/
theorem c1_full_value_counterexample :
    entryName "ct0=a=b" = "ct0" ∧
    entryFullValue "ct0=a=b" = some "a=b" ∧
    extractTokens false "ct0=a=b" =
      .ok { ct0 := "a", csrf_token := "a", auth_token := none,
            bearer_token := bearer_token_constant } ∧
    ("a" : String) ≠ "a=b" := by decide

/-- Claim C1 (amended): for every cookie string from which a variant
produces a bundle, if the last `ct0`-named entry has full value `v` and
`v` contains no `=`, then the bundle's `csrf_token` and `ct0` fields both
equal `v`.  (The amendment restricts the original claim to the last `ct0`
entry — later duplicates overwrite earlier ones — and to values without
`=`, which the split-and-destructure parse would truncate.) -/
theorem c1_csrf_eq_ct0_eq_value (b : Bool) (s v e : String) (cfg : Config)
    (hok : extractTokens b s = .ok cfg)
    (hlast : lastMatching isCt0Entry (jsSplit ';' s) = some e)
    (hfull : entryFullValue e = some v)
    (hnoeq : ∀ ch ∈ v.data, ch ≠ '=') :
    cfg.csrf_token = v ∧ cfg.ct0 = v := by
  obtain ⟨acc, hfold, htr, hb2, hcfg⟩ := extractTokens_ok b s cfg hok
  obtain ⟨f1, f2, f3⟩ := foldCookies_fields b _ _ acc hfold
  have hv : entryValue e = some v := entryValue_of_fullValue e v hfull hnoeq
  have hct : acc.ct0 = some v := by
    rw [f1, lastUpd_eq_lastMatching]
    simp [hlast, hv]
  have hcs : acc.csrf_token = some v := by
    rw [f2, lastUpd_eq_lastMatching]
    simp [hlast, hv]
  subst hcfg
  simp [hct, hcs]

/-- Witness for C1 (amended) at the cookie string `ct0=abc123`. -/
theorem c1_csrf_eq_ct0_eq_value_witness :
    (⟨"abc123", "abc123", none, bearer_token_constant⟩ : Config).csrf_token = "abc123" ∧
    (⟨"abc123", "abc123", none, bearer_token_constant⟩ : Config).ct0 = "abc123" :=
  c1_csrf_eq_ct0_eq_value false "ct0=abc123" "abc123" "ct0=abc123"
    ⟨"abc123", "abc123", none, bearer_token_constant⟩
    (by decide) (by decide) (by decide) (by decide)

/-- Claim C2, counterexample: on the entry `ct0=v1=v2` the extracted value
is `v1`, a truncated segment, and not the entire substring `v1=v2` after
the first `=` as the claim states. -/
theorem c2_first_equals_counterexample :
    entryValue "ct0=v1=v2" = some "v1" ∧
    entryFullValue "ct0=v1=v2" = some "v1=v2" ∧
    some "v1" ≠ entryFullValue "ct0=v1=v2" ∧
    extractTokens false "ct0=v1=v2" =
      .ok { ct0 := "v1", csrf_token := "v1", auth_token := none,
            bearer_token := bearer_token_constant } := by decide

/-- Claim C2 (amended): each entry is trimmed and split at every `=`; the
name is the part before the first `=` and the extracted value is the part
strictly between the first and the second `=` (up to the end when there is
no second `=`), i.e. a value containing `=` is truncated, not kept whole. -/
theorem c2_value_truncated_at_second_equals (cookie : String) :
    entryName cookie = ⟨charsBefore '=' (jsTrim cookie).data⟩ ∧
    entryValue cookie =
      (charsAfterFirst '=' (jsTrim cookie).data).map
        fun r => (⟨charsBefore '=' r⟩ : String) := by
  rw [entryName, entryValue, parseCookie_eq]
  exact ⟨rfl, rfl⟩

/-- Claim C3: for every cookie string with no `ct0`-named entry, both
variants report an error and produce no output file (no effect at all, so
in particular no file save). -/
theorem c3_no_ct0_errors_no_file (b : Bool) (s : String) (ca ok : Bool)
    (h : ∀ e ∈ jsSplit ';' s, isCt0Entry e = false) :
    extractionOk (extractTokens b s) = false ∧
    (runExtractor b s ca ok).2 = [] := by
  have herr : ∃ err, extractTokens b s = .error err := by
    cases hf : foldCookies b (jsSplit ';' s) TokensAcc.init with
    | error e => exact ⟨.thrown, by simp [extractTokens, hf]⟩
    | ok acc =>
      obtain ⟨f1, f2, f3⟩ := foldCookies_fields b _ _ acc hf
      have hnone : acc.ct0 = none := by
        rw [f1, lastUpd_eq_lastMatching, lastMatching_eq_none _ _ h]
        rfl
      exact ⟨.missingCt0, by simp [extractTokens, hf, hnone, truthy]⟩
  obtain ⟨err, herr⟩ := herr
  refine ⟨by rw [herr]; rfl, ?_⟩
  rw [runExtractor_of_error b s ca ok err herr]

/-- Witness for C3 at the cookie string `foo=bar; baz`. -/
theorem c3_no_ct0_errors_no_file_witness :
    extractionOk (extractTokens true "foo=bar; baz") = false ∧
    (runExtractor true "foo=bar; baz" true false).2 = [] :=
  c3_no_ct0_errors_no_file true "foo=bar; baz" true false (by decide)

/-- Claim C4: every bundle either variant outputs carries the fixed
hardcoded web-app bearer token, whatever the cookie string contains. -/
theorem c4_bearer_constant (b : Bool) (s : String) (cfg : Config)
    (h : extractTokens b s = .ok cfg) :
    cfg.bearer_token = bearer_token_constant := by
  obtain ⟨acc, hfold, htr, hb2, hcfg⟩ := extractTokens_ok b s cfg h
  rw [hcfg]

/-- Witness for C4 at a cookie string that even contains a cookie named
`bearer_token`. -/
theorem c4_bearer_constant_witness :
    (⟨"x", "x", none, bearer_token_constant⟩ : Config).bearer_token =
      bearer_token_constant :=
  c4_bearer_constant false "bearer_token=evil; ct0=x"
    ⟨"x", "x", none, bearer_token_constant⟩ (by decide)

/-- Claim C5: every bundle either variant successfully produces satisfies
the data-model invariant `csrf_token = ct0`, with `ct0` non-empty. -/
theorem c5_invariant_csrf_eq_ct0_nonempty (b : Bool) (s : String) (cfg : Config)
    (h : extractTokens b s = .ok cfg) :
    cfg.csrf_token = cfg.ct0 ∧ cfg.ct0 ≠ "" := by
  obtain ⟨acc, hfold, htr, hb2, hcfg⟩ := extractTokens_ok b s cfg h
  obtain ⟨f1, f2, f3⟩ := foldCookies_fields b _ _ acc hfold
  have heq : acc.csrf_token = acc.ct0 := by
    rw [f1, f2]
    rfl
  cases hct : acc.ct0 with
  | none => rw [hct] at htr; simp [truthy] at htr
  | some v =>
    have hv : v ≠ "" := by
      rw [hct] at htr
      simpa [truthy] using htr
    subst hcfg
    constructor
    · show acc.csrf_token.getD "" = acc.ct0.getD ""
      rw [heq]
    · show acc.ct0.getD "" ≠ ""
      rw [hct]
      exact hv

/-- Witness for C5 at the cookie string `ct0=abc; auth_token=t`. -/
theorem c5_invariant_witness :
    (⟨"abc", "abc", some "t", bearer_token_constant⟩ : Config).csrf_token =
        (⟨"abc", "abc", some "t", bearer_token_constant⟩ : Config).ct0 ∧
      (⟨"abc", "abc", some "t", bearer_token_constant⟩ : Config).ct0 ≠ "" :=
  c5_invariant_csrf_eq_ct0_nonempty true "ct0=abc; auth_token=t"
    ⟨"abc", "abc", some "t", bearer_token_constant⟩ (by decide)

/-- Claim C6: on `ct0=abc123; auth_token=xyz789` the strict variant outputs
exactly the four bindings `ct0`, `csrf_token`, `auth_token`,
`bearer_token`, with the stated values, in the script's insertion order. -/
theorem c6_example_strict_output :
    extractTokens true "ct0=abc123; auth_token=xyz789" =
      .ok { ct0 := "abc123", csrf_token := "abc123", auth_token := some "xyz789",
            bearer_token := bearer_token_constant } ∧
    configEntries
        (⟨"abc123", "abc123", some "xyz789", bearer_token_constant⟩ : Config) =
      [("ct0", "abc123"), ("csrf_token", "abc123"), ("auth_token", "xyz789"),
       ("bearer_token", bearer_token_constant)] := by decide

/-- Claim C7: on `ct0=abc123` alone the tolerant variant succeeds with no
`auth_token` field in the bundle, while the strict variant reports the
missing-auth_token error and saves no file. -/
theorem c7_tolerant_vs_strict_on_missing_auth :
    extractTokens false "ct0=abc123" =
      .ok { ct0 := "abc123", csrf_token := "abc123", auth_token := none,
            bearer_token := bearer_token_constant } ∧
    extractTokens true "ct0=abc123" = .error .missingAuthToken ∧
    (runExtractor true "ct0=abc123" true true).2 = [] := by decide

/-- Claim C8: the clipboard step is best-effort — the run outcome and the
file-save effects are the same whatever the clipboard availability and
write result, and no file save ever happens after a clipboard effect (the
download precedes the clipboard write). -/
theorem c8_clipboard_best_effort (b : Bool) (s : String) (ca ok ca2 ok2 : Bool) :
    (runExtractor b s ca ok).1 = (runExtractor b s ca2 ok2).1 ∧
    (runExtractor b s ca ok).2.filter isFileSave =
      (runExtractor b s ca2 ok2).2.filter isFileSave ∧
    noSaveAfterClipboard (runExtractor b s ca ok).2 = true := by
  cases h : extractTokens b s with
  | error e => simp [runExtractor, h, noSaveAfterClipboard]
  | ok c =>
    cases ca <;> cases ca2 <;>
      simp [runExtractor, h, noSaveAfterClipboard, isClipboardEffect, isFileSave,
        List.filter]

/-- Claim C9: a `ct0` cookie present with an empty value is treated like an
absent one: both variants report the missing-ct0 error and produce no
output (the truthiness test `!tokens.ct0` rejects the empty string). -/
theorem c9_empty_ct0_like_absent (b : Bool) (s : String) (ca ok : Bool)
    (_hpresent : ∃ e ∈ jsSplit ';' s, isCt0Entry e = true)
    (hct0 : ∀ e ∈ jsSplit ';' s, isCt0Entry e = true → entryValue e = some "")
    (hauth : ∀ e ∈ jsSplit ';' s, isAuthEntry e = true → entryValue e ≠ none) :
    extractTokens b s = .error .missingCt0 ∧
    (runExtractor b s ca ok).2 = [] := by
  have hcond : ∀ e ∈ jsSplit ';' s,
      (isCt0Entry e = true → entryValue e ≠ none) ∧
      ((b && isAuthEntry e) = true → entryValue e ≠ none) := by
    intro e he
    refine ⟨fun hc => ?_, fun hb => ?_⟩
    · rw [hct0 e he hc]; simp
    · simp only [Bool.and_eq_true] at hb
      exact hauth e he hb.2
  obtain ⟨acc, hfold⟩ := foldCookies_total b (jsSplit ';' s) TokensAcc.init hcond
  obtain ⟨f1, f2, f3⟩ := foldCookies_fields b _ _ acc hfold
  have hct : truthy acc.ct0 = false := by
    rw [f1, lastUpd_eq_lastMatching]
    cases hm : lastMatching isCt0Entry (jsSplit ';' s) with
    | none => rfl
    | some e =>
      obtain ⟨he, hp⟩ := lastMatching_mem _ _ e hm
      show truthy (entryValue e) = false
      rw [hct0 e he hp]
      rfl
  have herr : extractTokens b s = .error .missingCt0 := by
    simp [extractTokens, hfold, hct]
  exact ⟨herr, by rw [runExtractor_of_error b s ca ok _ herr]⟩

/-- Witness for C9 at `ct0=; auth_token=xyz`: even with a valid
`auth_token`, the empty `ct0` makes both checks fail with missing-ct0. -/
theorem c9_empty_ct0_like_absent_witness :
    extractTokens true "ct0=; auth_token=xyz" = .error .missingCt0 ∧
    (runExtractor true "ct0=; auth_token=xyz" true true).2 = [] :=
  c9_empty_ct0_like_absent true "ct0=; auth_token=xyz" true true
    (by decide) (by decide) (by decide)

/-- Claim C10: with duplicated `ct0` (or, in the strict variant,
`auth_token`) cookies, the bundle holds the value of the last such entry:
the left-to-right `forEach` pass overwrites earlier occurrences. -/
theorem c10_last_duplicate_wins (b : Bool) (s : String) (cfg : Config)
    (e e2 : String)
    (hok : extractTokens b s = .ok cfg)
    (hlast : lastMatching isCt0Entry (jsSplit ';' s) = some e) :
    some cfg.ct0 = entryValue e ∧
    (b = true → lastMatching isAuthEntry (jsSplit ';' s) = some e2 →
      cfg.auth_token = entryValue e2) := by
  obtain ⟨acc, hfold, htr, hb2, hcfg⟩ := extractTokens_ok b s cfg hok
  obtain ⟨f1, f2, f3⟩ := foldCookies_fields b _ _ acc hfold
  have hct : acc.ct0 = entryValue e := by
    rw [f1, lastUpd_eq_lastMatching]
    simp [hlast]
  subst hcfg
  refine ⟨?_, ?_⟩
  · cases hv : acc.ct0 with
    | none => rw [hv] at htr; simp [truthy] at htr
    | some v =>
      rw [hv] at hct
      simp only [hv, Option.getD_some]
      exact hct
  · intro hb hlast2
    subst hb
    show acc.auth_token = entryValue e2
    have hfun : (fun c => true && isAuthEntry c) = fun c => isAuthEntry c := by
      funext c
      rw [Bool.true_and]
    rw [f3, hfun, lastUpd_eq_lastMatching]
    simp [hlast2]

/-- Witness for C10 at `ct0=a; ct0=b; auth_token=x; auth_token=y`: the
strict variant's bundle holds `b` and `y`, the later occurrences. -/
theorem c10_last_duplicate_wins_witness :
    some (⟨"b", "b", some "y", bearer_token_constant⟩ : Config).ct0 =
        entryValue " ct0=b" ∧
    (true = true →
      lastMatching isAuthEntry
          (jsSplit ';' "ct0=a; ct0=b; auth_token=x; auth_token=y") =
        some " auth_token=y" →
      (⟨"b", "b", some "y", bearer_token_constant⟩ : Config).auth_token =
        entryValue " auth_token=y") :=
  c10_last_duplicate_wins true "ct0=a; ct0=b; auth_token=x; auth_token=y"
    ⟨"b", "b", some "y", bearer_token_constant⟩ " ct0=b" " auth_token=y"
    (by decide) (by decide)

end XInterestCleaner
